import Mathlib

/-!
# Verification development for the gobrain neural-network engine

A shallow embedding of the gobrain feed-forward / Elman-recurrent network
(the float64 FeedForward type and, for the weight-serialization entry point,
the FeedForward32 type) together with its helper linear-algebra routines.

Modelling conventions:
* Machine floating-point numbers are embedded as exact rationals; the claims
  settled here concern the arithmetic structure of the update rules, buffer
  shapes, in-place aliasing and error handling, none of which depend on
  rounding.
* The logistic-sigmoid activation calls the transcendental exp, which has no
  exact rational counterpart; forward-pass definitions therefore take the
  elementwise activation as an explicit function parameter (the spec treats
  the activation module as an external collaborator).  All forward-pass
  claims hold for every activation.
* Go slices are embedded as lists of rationals.  The one place where slice
  reference semantics is observable - the context ring stores the slice
  header of the live hidden-activation buffer, not a copy - is modelled by
  the CtxRef type: a context entry is either a reference to the hidden
  buffer (CtxRef.hid) or an owned buffer with its own contents (CtxRef.own).
* log.Fatal (process abort on bad argument lengths) and out-of-range slice
  indexing (panic) are modelled by Option-valued operations returning none;
  no post-state exists for a failing call.
* Within-bounds slice reads whose bounds are guaranteed by the allocation
  discipline of Init are embedded with the total accessor getD; claims whose
  conclusions depend on those reads carry the corresponding shape
  hypotheses.  The context-buffer reads, whose bounds are NOT guaranteed by
  construction (SetContexts accepts arbitrary caller buffers), are embedded
  with the Option-valued accessor so that the out-of-range panic is visible.
-/

namespace Gobrain

/-- util.go vector: a buffer of I copies of fill. -/
def vector (I : ℕ) (fill : ℚ) : List ℚ := List.replicate I fill

/-- util.go matrix: an I x J matrix of zeros.  (The Go version carves the
rows out of one dense backing array; the rows are disjoint segments, so a
row-of-rows list is an exact model.) -/
def matrix (I J : ℕ) : List (List ℚ) := List.replicate I (List.replicate J 0)

/-- other.go dot64: sum of pairwise products, iterating over X. -/
def dot64 (X Y : List ℚ) : ℚ := (List.zipWith (fun x y => x * y) X Y).sum

/-- other.go scal64: X[i] = alpha * x, in place. -/
def scal64 (alpha : ℚ) (X : List ℚ) : List ℚ := X.map (fun x => alpha * x)

/-- other.go axpy64: Y[i] = alpha*X[i] + y, in place, iterating over Y. -/
def axpy64 (alpha : ℚ) (X Y : List ℚ) : List ℚ :=
  (List.range Y.length).map (fun i => alpha * X.getD i 0 + Y.getD i 0)

/-- Go built-in copy(dst, src): overwrites the first min(len dst, len src)
entries of dst with those of src; dst keeps its length. -/
def goCopy (dst src : List ℚ) : List ℚ :=
  src.take (min dst.length src.length) ++ dst.drop (min dst.length src.length)

/-- util.go dsigmoid: derivative of the logistic sigmoid expressed in the
output value y, i.e. y * (1 - y).  Pure rational arithmetic. -/
def dsigmoid (y : ℚ) : ℚ := y * (1 - y)

/-- Read matrix entry M[r][c] (total accessor, default 0). -/
def mget (M : List (List ℚ)) (r c : ℕ) : ℚ := (M.getD r []).getD c 0

/-- Write matrix entry M[r][c] (no-op when out of range, matching List.set). -/
def mset (M : List (List ℚ)) (r c : ℕ) (x : ℚ) : List (List ℚ) :=
  M.set r ((M.getD r []).set c x)

/-- A context-ring entry: either the slice header of the live
HiddenActivations buffer (stored by the context update in update) or a
buffer with its own storage (allocated by SetContexts / supplied by the
caller). -/
inductive CtxRef where
  | hid : CtxRef
  | own : List ℚ → CtxRef
  deriving DecidableEq

/-- Dereference a context entry against the current hidden buffer. -/
def readCtx (hiddenActs : List ℚ) : CtxRef → List ℚ
  | CtxRef.hid => hiddenActs
  | CtxRef.own v => v

/-- feedforward.go FeedForward (float64 variant): the sole stateful entity.
NInputs and NHiddens include the +1 bias unit, exactly as stored by Init. -/
structure FeedForward where
  NInputs : ℕ
  NHiddens : ℕ
  NOutputs : ℕ
  Regression : Bool
  InputActivations : List ℚ
  HiddenActivations : List ℚ
  OutputActivations : List ℚ
  Contexts : List CtxRef
  InputWeights : List (List ℚ)
  OutputWeights : List (List ℚ)
  InputChanges : List (List ℚ)
  OutputChanges : List (List ℚ)
  Dropout : ℚ
  deriving DecidableEq

/-- The nested weight-initialization loops of Init: outer loop over source
units i (columns), inner loop over destination units j (rows), setting
M[j][i] = rnd i j (the random draw at that loop position). -/
def fillMatrix (rnd : ℕ → ℕ → ℚ) (nCols nRows : ℕ) (M0 : List (List ℚ)) : List (List ℚ) :=
  (List.range nCols).foldl
    (fun M i => (List.range nRows).foldl (fun M j => mset M j i (rnd i j)) M) M0

/-- feedforward.go Init: fixes the topology (adding one bias unit to the
input and hidden layers), allocates all activation buffers filled with 1.0,
fills both weight matrices from the random source, and allocates the
momentum matrices with matrix(NInputs, NHiddens) and
matrix(NHiddens, NOutputs).  The random draws random(-1, 1) are supplied by
the parameters rndI and rndO (indexed by the two loop counters). -/
def Init (nn : FeedForward) (inputs hiddens outputs : ℕ) (rndI rndO : ℕ → ℕ → ℚ) : FeedForward :=
  { nn with
    NInputs := inputs + 1
    NHiddens := hiddens + 1
    NOutputs := outputs
    InputActivations := vector (inputs + 1) 1
    HiddenActivations := vector (hiddens + 1) 1
    OutputActivations := vector outputs 1
    InputWeights := fillMatrix rndI (inputs + 1) (hiddens + 1) (matrix (hiddens + 1) (inputs + 1))
    OutputWeights := fillMatrix rndO (hiddens + 1) outputs (matrix outputs (hiddens + 1))
    InputChanges := matrix (inputs + 1) (hiddens + 1)
    OutputChanges := matrix (hiddens + 1) outputs }

/-- feedforward.go SetContexts: with initValues nil, allocates nContexts
buffers vector(NHiddens, 0.5); with initValues present, installs the
caller-supplied buffers outright (nContexts ignored), with no length
validation. -/
def SetContexts (nn : FeedForward) (nContexts : ℕ) (initValues : Option (List (List ℚ))) :
    FeedForward :=
  match initValues with
  | none =>
    { nn with Contexts := (List.range nContexts).map (fun _ => CtxRef.own (vector nn.NHiddens (1/2))) }
  | some vs => { nn with Contexts := vs.map CtxRef.own }

/-- Sum of the first m entries of a buffer, each read with the Option-valued
accessor: none exactly when the buffer is shorter than m (the Go code would
panic on the first out-of-range index). -/
def sumFirst (v : List ℚ) (m : ℕ) : Option ℚ :=
  ((List.range m).mapM (fun j => v[j]?)).map List.sum

/-- The context-sum loop of update: for every context buffer k and every
j < NHiddens-1, sum += Contexts[k][j], each entry dereferenced against the
current hidden buffer (an aliased entry reads the live, partially updated
hidden activations). -/
def ctxSum (hiddenActs : List ℚ) (ctxs : List CtxRef) (m : ℕ) : Option ℚ :=
  (ctxs.mapM (fun c => sumFirst (readCtx hiddenActs c) m)).map List.sum

/-- One iteration of the hidden-unit loop of update (unit i): the weighted
input sum plus the context sum, squashed by the activation, then the
inverted-dropout branch in training mode (rnd i is that unit's uniform
draw). -/
def hiddenStep (act : ℚ → ℚ) (train : Bool) (dropRate : ℚ) (rnd : ℕ → ℚ) (inActs : List ℚ)
    (IW : List (List ℚ)) (ctxs : List CtxRef) (m : ℕ) (h : List ℚ) (i : ℕ) : Option (List ℚ) :=
  (ctxSum h ctxs m).map (fun s =>
    let sum := dot64 inActs (IW.getD i []) + s
    let v := act sum
    let v2 := if train = true ∧ dropRate ≠ 0 then
        (if rnd i > 1 - dropRate then 0 else v * (1 / (1 - dropRate))) else v
    h.set i v2)

/-- The hidden-unit loop of update, threading the evolving hidden buffer
(writes at index i are visible to later iterations through aliased context
entries). -/
def hiddenPass (act : ℚ → ℚ) (train : Bool) (dropRate : ℚ) (rnd : ℕ → ℚ) (inActs : List ℚ)
    (IW : List (List ℚ)) (ctxs : List CtxRef) (m : ℕ) (h0 : List ℚ) : Option (List ℚ) :=
  (List.range m).foldlM (hiddenStep act train dropRate rnd inActs IW ctxs m) h0

/-- The input-copy loop of update: dst[i] = src[i] for i < m, leaving the
slots from index m on (the bias slot) untouched. -/
def fillFrom (dst src : List ℚ) (m : ℕ) : List ℚ :=
  (List.range m).foldl (fun A i => A.set i (src.getD i 0)) dst

/-- The descending index sequence m, m-1, ..., 1 of the context-shift loop
(for i := len-1; i > 0; i--). -/
def downList : ℕ → List ℕ
  | 0 => []
  | n + 1 => (n + 1) :: downList n

/-- The context-update block of update: when at least one context is
configured, shift every entry down one position (Contexts[i] = Contexts[i-1],
iterating from the top index down to 1) and store the reference to the live
hidden buffer at position 0. -/
def shiftCtx (C : List CtxRef) : List CtxRef :=
  if 0 < C.length then
    ((downList (C.length - 1)).foldl (fun A i => A.set i (A.getD (i - 1) (CtxRef.own []))) C).set
      0 CtxRef.hid
  else C

/-- feedforward.go update(inputs, train): the forward pass.  Fails (none)
when the input length differs from NInputs-1 - before any buffer is written -
or when a context read goes out of range.  Otherwise copies the inputs,
runs the hidden loop, performs the context update, and computes the output
layer: raw dot products under Regression, act-squashed sums otherwise. -/
def updateGo (act : ℚ → ℚ) (train : Bool) (rnd : ℕ → ℚ) (nn : FeedForward) (inputs : List ℚ) :
    Option FeedForward :=
  if inputs.length ≠ nn.NInputs - 1 then none
  else
    match hiddenPass act train nn.Dropout rnd
        (fillFrom nn.InputActivations inputs (nn.NInputs - 1)) nn.InputWeights nn.Contexts
        (nn.NHiddens - 1) nn.HiddenActivations with
    | none => none
    | some h =>
      some { nn with
              InputActivations := fillFrom nn.InputActivations inputs (nn.NInputs - 1)
              HiddenActivations := h
              Contexts := shiftCtx nn.Contexts
              OutputActivations :=
                if nn.Regression = true then
                  (List.range nn.NOutputs).map (fun i => dot64 h (nn.OutputWeights.getD i []))
                else
                  (List.range nn.NOutputs).map
                    (fun i => act (dot64 h (nn.OutputWeights.getD i []))) }

/-- feedforward.go Update: the public forward pass, update(inputs, false).
The dropout random source is never consulted with train = false. -/
def Update (act : ℚ → ℚ) (nn : FeedForward) (inputs : List ℚ) : Option FeedForward :=
  updateGo act false (fun _ => 0) nn inputs

/-- The output-delta loop of BackPropagate: raw difference under Regression,
otherwise scaled by dsigmoid of the stored output activation. -/
def outputDeltas (nn : FeedForward) (targets : List ℚ) : List ℚ :=
  if nn.Regression = true then
    (List.range nn.NOutputs).map (fun i => targets.getD i 0 - nn.OutputActivations.getD i 0)
  else
    (List.range nn.NOutputs).map (fun i =>
      dsigmoid (nn.OutputActivations.getD i 0) * (targets.getD i 0 - nn.OutputActivations.getD i 0))

/-- The hidden-delta loop of BackPropagate: back-projected output deltas
through the (pre-update) output weights, scaled by dsigmoid of the hidden
activation. -/
def hiddenDeltas (nn : FeedForward) (od : List ℚ) : List ℚ :=
  (List.range nn.NHiddens).map (fun i =>
    dsigmoid (nn.HiddenActivations.getD i 0) *
      ((List.range nn.NOutputs).foldl (fun e j => e + od.getD j 0 * mget nn.OutputWeights j i) 0))

/-- The inner weight-update loop of BackPropagate: W[j][c] += v[j] for every
destination row j < nRows, down column c. -/
def colAdd (v : List ℚ) (c : ℕ) (nRows : ℕ) (W : List (List ℚ)) : List (List ℚ) :=
  (List.range nRows).foldl (fun W j => mset W j c (mget W j c + v.getD j 0)) W

/-- One iteration (source unit i) of a BackPropagate weight-update loop:
copy(change, deltas); scal64(acts[i], change); scal64(mFactor, changes[i]);
axpy64(lRate, change, changes[i]); W[j][i] += changes[i][j] for each j;
copy(changes[i], change).  The buffer reuse of change is modelled by
recomputing it (the copy overwrites every entry read afterwards); ci is the
in-place value changes[i] holds during the weight writes, and the final
copy makes goCopy ci change the stored row. -/
def bpStep (acts deltas : List ℚ) (lRate mFactor : ℚ) (nRows : ℕ)
    (p : List (List ℚ) × List (List ℚ)) (i : ℕ) : List (List ℚ) × List (List ℚ) :=
  let change := scal64 (acts.getD i 0) deltas
  let ci := axpy64 lRate change (scal64 mFactor (p.1.getD i []))
  (p.1.set i (goCopy ci change), colAdd ci i nRows p.2)

/-- A full BackPropagate weight-update loop over the n source units,
threading (momentum matrix, weight matrix).  Instantiated twice: with the
hidden activations and output deltas (n = NHiddens, nRows = NOutputs), and
with the input activations and hidden deltas (n = NInputs,
nRows = NHiddens). -/
def bpLoop (acts deltas : List ℚ) (lRate mFactor : ℚ) (n nRows : ℕ)
    (p0 : List (List ℚ) × List (List ℚ)) : List (List ℚ) × List (List ℚ) :=
  (List.range n).foldl (bpStep acts deltas lRate mFactor nRows) p0

/-- feedforward.go BackPropagate: fails (none) when the target length
differs from NOutputs; otherwise computes the deltas, applies both
momentum-weighted weight-update loops, and returns the updated network with
the error sum over i < len(targets) of (target_i - output_i)^2 - no 0.5
factor and no averaging. -/
def BackPropagate (nn : FeedForward) (targets : List ℚ) (lRate mFactor : ℚ) :
    Option (FeedForward × ℚ) :=
  if targets.length ≠ nn.NOutputs then none
  else
    let od := outputDeltas nn targets
    let hd := hiddenDeltas nn od
    let pOut := bpLoop nn.HiddenActivations od lRate mFactor nn.NHiddens nn.NOutputs
        (nn.OutputChanges, nn.OutputWeights)
    let pIn := bpLoop nn.InputActivations hd lRate mFactor nn.NInputs nn.NHiddens
        (nn.InputChanges, nn.InputWeights)
    let e := (List.range targets.length).foldl
        (fun e i => e + (targets.getD i 0 - nn.OutputActivations.getD i 0) ^ 2) 0
    some ({ nn with
             OutputChanges := pOut.1
             OutputWeights := pOut.2
             InputChanges := pIn.1
             InputWeights := pIn.2 }, e)

/-- feedforward.go FeedForward32, restricted to the fields SetWeights
touches or reads (its Activation/DActivation function fields play no role in
weight serialization). -/
structure FeedForward32 where
  NInputs : ℕ
  NHiddens : ℕ
  NOutputs : ℕ
  InputWeights : List (List ℚ)
  OutputWeights : List (List ℚ)
  deriving DecidableEq

/-- The inner loop of SetWeights at source unit i: for each destination
unit j, M[j][i] = weights[w], incrementing the running counter w. -/
def fillCol (weights : List ℚ) (i nRows : ℕ) (q0 : List (List ℚ) × ℕ) :
    List (List ℚ) × ℕ :=
  (List.range nRows).foldl (fun q j => (mset q.1 j i (weights.getD q.2 0), q.2 + 1)) q0

/-- The double loop of SetWeights on one matrix: outer loop over source
units i, inner loop over destination units j, M[j][i] = weights[w] with the
running counter w threaded through. -/
def fillSeq (weights : List ℚ) (nCols nRows : ℕ) (p0 : List (List ℚ) × ℕ) :
    List (List ℚ) × ℕ :=
  (List.range nCols).foldl (fun p i => fillCol weights i nRows p) p0

/-- feedforward.go (FeedForward32) SetWeights: overwrites InputWeights from
the head of the flat vector and then OutputWeights from the remainder, the
counter running across both double loops. -/
def SetWeights (nn : FeedForward32) (weights : List ℚ) : FeedForward32 :=
  let pIn := fillSeq weights nn.NInputs nn.NHiddens (nn.InputWeights, 0)
  let pOut := fillSeq weights nn.NHiddens nn.NOutputs (nn.OutputWeights, pIn.2)
  { nn with InputWeights := pIn.1, OutputWeights := pOut.1 }

/-- Modelled from the claim's words, for comparison with the source
definition SetWeights: reads the flat sequence in row-major order keyed by
destination unit (all weights into destination unit 0 first, then all
weights into destination unit 1, and so on), input matrix before output
matrix. -/
def SetWeightsDestMajor (nn : FeedForward32) (weights : List ℚ) : FeedForward32 :=
  { nn with
    InputWeights := (List.range nn.NHiddens).map (fun j =>
      (List.range nn.NInputs).map (fun i => weights.getD (j * nn.NInputs + i) 0))
    OutputWeights := (List.range nn.NOutputs).map (fun j =>
      (List.range nn.NHiddens).map (fun i =>
        weights.getD (nn.NInputs * nn.NHiddens + j * nn.NHiddens + i) 0)) }

/-- M is an mRows x nCols matrix: mRows rows, each of length nCols. -/
def Mat (mRows nCols : ℕ) (M : List (List ℚ)) : Prop :=
  M.length = mRows ∧ ∀ r ∈ M, r.length = nCols

instance instDecidableMat (m n : ℕ) (M : List (List ℚ)) : Decidable (Mat m n M) :=
  decidable_of_iff (M.length = m ∧ ∀ r ∈ M, r.length = n) Iff.rfl

/-- The shape discipline established by Init: activation buffer lengths
match the stored sizes, weight matrices are destination x source, momentum
matrices source x destination. -/
def WellShaped (nn : FeedForward) : Prop :=
  nn.InputActivations.length = nn.NInputs ∧
  nn.HiddenActivations.length = nn.NHiddens ∧
  nn.OutputActivations.length = nn.NOutputs ∧
  Mat nn.NHiddens nn.NInputs nn.InputWeights ∧
  Mat nn.NOutputs nn.NHiddens nn.OutputWeights ∧
  Mat nn.NInputs nn.NHiddens nn.InputChanges ∧
  Mat nn.NHiddens nn.NOutputs nn.OutputChanges

instance instDecidableWellShaped (nn : FeedForward) : Decidable (WellShaped nn) :=
  decidable_of_iff
    (nn.InputActivations.length = nn.NInputs ∧
      nn.HiddenActivations.length = nn.NHiddens ∧
      nn.OutputActivations.length = nn.NOutputs ∧
      Mat nn.NHiddens nn.NInputs nn.InputWeights ∧
      Mat nn.NOutputs nn.NHiddens nn.OutputWeights ∧
      Mat nn.NInputs nn.NHiddens nn.InputChanges ∧
      Mat nn.NHiddens nn.NOutputs nn.OutputChanges) Iff.rfl

/-! ### Concrete networks used as evaluation points by the witness theorems -/

/-- The Go zero value of the FeedForward struct (the state before Init). -/
def nilNN : FeedForward where
  NInputs := 0
  NHiddens := 0
  NOutputs := 0
  Regression := false
  InputActivations := []
  HiddenActivations := []
  OutputActivations := []
  Contexts := []
  InputWeights := []
  OutputWeights := []
  InputChanges := []
  OutputChanges := []
  Dropout := 0

/-- A minimal well-shaped regression network (one input incl. bias, one
hidden unit incl. bias, one output) with a nonzero output delta. -/
def c1NN : FeedForward where
  NInputs := 1
  NHiddens := 1
  NOutputs := 1
  Regression := true
  InputActivations := [1]
  HiddenActivations := [1]
  OutputActivations := [0]
  Contexts := []
  InputWeights := [[0]]
  OutputWeights := [[0]]
  InputChanges := [[0]]
  OutputChanges := [[0]]
  Dropout := 0

/-- The state of c1NN after BackPropagate [1] with learning rate 2 and
momentum 0: the weight received the applied change 2, but the stored
previous change is the unscaled 1. -/
def c1NN2 : FeedForward :=
  { c1NN with OutputWeights := [[2]], OutputChanges := [[1]] }

/-- A minimal recurrent network with two context buffers. -/
def ctxNN : FeedForward where
  NInputs := 1
  NHiddens := 1
  NOutputs := 1
  Regression := false
  InputActivations := [1]
  HiddenActivations := [1]
  OutputActivations := [1]
  Contexts := [CtxRef.own [], CtxRef.own []]
  InputWeights := [[0]]
  OutputWeights := [[0]]
  InputChanges := [[0]]
  OutputChanges := [[0]]
  Dropout := 0

/-- ctxNN after one forward pass (with the identity activation). -/
def ctxNN1 : FeedForward :=
  { ctxNN with
    HiddenActivations := [1]
    Contexts := [CtxRef.hid, CtxRef.own []]
    OutputActivations := [0] }

/-- ctxNN after two forward passes: both context entries now reference the
live hidden buffer. -/
def ctxNN2 : FeedForward :=
  { ctxNN with
    HiddenActivations := [1]
    Contexts := [CtxRef.hid, CtxRef.hid]
    OutputActivations := [0] }

/-- A 2x2-input / 1-output FeedForward32 weight container. -/
def c4NN32 : FeedForward32 where
  NInputs := 2
  NHiddens := 2
  NOutputs := 1
  InputWeights := [[0, 0], [0, 0]]
  OutputWeights := [[0, 0]]

/-- A distinguishable flat weight vector for c4NN32
(2*2 input entries followed by 2*1 output entries). -/
def c4w : List ℚ := [10, 11, 12, 13, 14, 15]

/-- A minimal network used by the error-sum witness. -/
def c5NN : FeedForward where
  NInputs := 1
  NHiddens := 1
  NOutputs := 1
  Regression := false
  InputActivations := [1]
  HiddenActivations := [1]
  OutputActivations := [3]
  Contexts := []
  InputWeights := [[0]]
  OutputWeights := [[0]]
  InputChanges := [[0]]
  OutputChanges := [[0]]
  Dropout := 0

/-- A minimal one-context network used by the context-shift witness. -/
def c6NN : FeedForward where
  NInputs := 1
  NHiddens := 1
  NOutputs := 1
  Regression := false
  InputActivations := [1]
  HiddenActivations := [1]
  OutputActivations := [1]
  Contexts := [CtxRef.own [7]]
  InputWeights := [[0]]
  OutputWeights := [[0]]
  InputChanges := [[0]]
  OutputChanges := [[0]]
  Dropout := 0

/-- c6NN after one forward pass (identity activation): the single context
entry is replaced by the reference to the live hidden buffer. -/
def c6NN1 : FeedForward :=
  { c6NN with
    HiddenActivations := [1]
    Contexts := [CtxRef.hid]
    OutputActivations := [0] }

/-- A plain feed-forward network used by the shape and bias witnesses. -/
def c9NN : FeedForward where
  NInputs := 2
  NHiddens := 1
  NOutputs := 1
  Regression := false
  InputActivations := [4, 1]
  HiddenActivations := [1]
  OutputActivations := [1]
  Contexts := []
  InputWeights := [[0, 0]]
  OutputWeights := [[0]]
  InputChanges := [[0], [0]]
  OutputChanges := [[0]]
  Dropout := 0

/-- c9NN after a forward pass on input [5] (identity activation): the data
slot is overwritten, the bias slot (index 1) keeps its value 1. -/
def c9NN1 : FeedForward :=
  { c9NN with
    InputActivations := [5, 1]
    OutputActivations := [0] }

/-- A constant-zero random source standing in for random(-1, 1). -/
def zRnd : ℕ → ℕ → ℚ := fun _ _ => 0

/-- c5NN after BackPropagate [1] with learning rate 2 and momentum 0. -/
def c5NN2 : FeedForward :=
  { c5NN with OutputWeights := [[24]], OutputChanges := [[12]] }

/-- A minimal regression-mode network with a nonzero output weight. -/
def c8NN : FeedForward where
  NInputs := 1
  NHiddens := 1
  NOutputs := 1
  Regression := true
  InputActivations := [1]
  HiddenActivations := [1]
  OutputActivations := [1]
  Contexts := []
  InputWeights := [[0]]
  OutputWeights := [[2]]
  InputChanges := [[0]]
  OutputChanges := [[0]]
  Dropout := 0

/-- c8NN after a forward pass on []: output = raw dot product 2. -/
def c8NN1 : FeedForward :=
  { c8NN with OutputActivations := [2] }

/-- A two-hidden-unit network (one non-bias hidden unit) used by the
context-bounds witness. -/
def c10NN : FeedForward where
  NInputs := 1
  NHiddens := 2
  NOutputs := 1
  Regression := false
  InputActivations := [1]
  HiddenActivations := [1, 1]
  OutputActivations := [1]
  Contexts := []
  InputWeights := [[0], [0]]
  OutputWeights := [[0, 0]]
  InputChanges := [[0, 0]]
  OutputChanges := [[0], [0]]
  Dropout := 0

/-! ### List and matrix access lemmas -/

lemma getElem?_isSome_iff {α : Type} (l : List α) (i : ℕ) : l[i]?.isSome ↔ i < l.length := by
  constructor
  · intro h
    by_contra hc
    rw [List.getElem?_eq_none (by omega)] at h
    simp at h
  · intro h
    rw [List.getElem?_eq_getElem h]
    simp

lemma getD_set_self {α : Type} (l : List α) (i : ℕ) (a d : α) (h : i < l.length) :
    (l.set i a).getD i d = a := by
  rw [List.getD_eq_getElem?_getD]
  simp [List.getElem?_set, h]

lemma getD_set_ne {α : Type} (l : List α) (i j : ℕ) (a d : α) (h : i ≠ j) :
    (l.set i a).getD j d = l.getD j d := by
  rw [List.getD_eq_getElem?_getD, List.getD_eq_getElem?_getD]
  simp [List.getElem?_set, h]

lemma getD_range_map {α : Type} (f : ℕ → α) (n i : ℕ) (d : α) (h : i < n) :
    ((List.range n).map f).getD i d = f i := by
  rw [List.getD_eq_getElem?_getD]
  simp [List.getElem?_map, List.getElem?_range h]

lemma foldl_range_succ {β : Type} (f : β → ℕ → β) (b : β) (n : ℕ) :
    (List.range (n + 1)).foldl f b = f ((List.range n).foldl f b) n := by
  rw [List.range_succ, List.foldl_append]
  rfl

lemma foldl_preserves {α β : Type} (P : α → Prop) (f : α → β → α) (l : List β) (a : α)
    (hf : ∀ x b, P x → P (f x b)) (ha : P a) : P (l.foldl f a) := by
  induction l generalizing a with
  | nil => exact ha
  | cons x xs ih => exact ih _ (hf _ _ ha)

lemma length_scal64 (a : ℚ) (X : List ℚ) : (scal64 a X).length = X.length := by
  simp [scal64]

lemma getD_scal64 (a : ℚ) (X : List ℚ) (i : ℕ) (h : i < X.length) :
    (scal64 a X).getD i 0 = a * X.getD i 0 := by
  simp [scal64, List.getD_eq_getElem?_getD, List.getElem?_map, List.getElem?_eq_getElem h]

lemma length_axpy64 (a : ℚ) (X Y : List ℚ) : (axpy64 a X Y).length = Y.length := by
  simp [axpy64]

lemma getD_axpy64 (a : ℚ) (X Y : List ℚ) (i : ℕ) (h : i < Y.length) :
    (axpy64 a X Y).getD i 0 = a * X.getD i 0 + Y.getD i 0 := by
  unfold axpy64
  exact getD_range_map _ _ _ _ h

lemma length_goCopy (dst src : List ℚ) : (goCopy dst src).length = dst.length := by
  simp [goCopy]

lemma getD_goCopy_lt (dst src : List ℚ) (i : ℕ) (h : i < min dst.length src.length) :
    (goCopy dst src).getD i 0 = src.getD i 0 := by
  unfold goCopy
  rw [List.getD_eq_getElem?_getD, List.getD_eq_getElem?_getD]
  have h1 : i < (src.take (min dst.length src.length)).length := by
    simp
    omega
  rw [List.getElem?_append, if_pos h1, List.getElem?_take, if_pos h]

lemma length_mset (M : List (List ℚ)) (r c : ℕ) (x : ℚ) : (mset M r c x).length = M.length := by
  simp [mset]

lemma mset_out_of_range (M : List (List ℚ)) (r c : ℕ) (x : ℚ) (h : M.length ≤ r) :
    mset M r c x = M := by
  unfold mset
  exact List.set_eq_of_length_le h

lemma mget_mset_self (M : List (List ℚ)) (r c : ℕ) (x : ℚ) (hr : r < M.length)
    (hc : c < (M.getD r []).length) : mget (mset M r c x) r c = x := by
  unfold mget mset
  rw [getD_set_self _ _ _ _ hr]
  exact getD_set_self _ _ _ _ hc

lemma mget_mset_ne (M : List (List ℚ)) (r c r' c' : ℕ) (x : ℚ) (h : r ≠ r' ∨ c ≠ c') :
    mget (mset M r c x) r' c' = mget M r' c' := by
  unfold mget mset
  by_cases hr : r = r'
  · subst hr
    rcases h with h | h
    · exact absurd rfl h
    · by_cases hlen : r < M.length
      · rw [getD_set_self _ _ _ _ hlen]
        exact getD_set_ne _ _ _ _ _ h
      · rw [List.set_eq_of_length_le (by omega)]
  · rw [getD_set_ne _ _ _ _ _ hr]

lemma rowLength_mset (M : List (List ℚ)) (r c : ℕ) (x : ℚ) (r' : ℕ) :
    ((mset M r c x).getD r' []).length = (M.getD r' []).length := by
  unfold mset
  by_cases hr : r = r'
  · subst hr
    by_cases hlen : r < M.length
    · rw [getD_set_self _ _ _ _ hlen]
      simp
    · rw [List.set_eq_of_length_le (by omega)]
  · rw [getD_set_ne _ _ _ _ _ hr]

lemma mat_matrix (I J : ℕ) : Mat I J (matrix I J) := by
  constructor
  · simp [matrix]
  · intro r hr
    rw [List.eq_of_mem_replicate hr]
    simp

lemma mat_rowLen {m n : ℕ} {M : List (List ℚ)} (h : Mat m n M) (r : ℕ) (hr : r < m) :
    (M.getD r []).length = n := by
  have hlen : r < M.length := by rw [h.1]; exact hr
  have hmem : M.getD r [] ∈ M := by
    rw [List.getD_eq_getElem?_getD, List.getElem?_eq_getElem hlen]
    exact List.getElem_mem hlen
  exact h.2 _ hmem

lemma mat_mset {m n : ℕ} {M : List (List ℚ)} (r c : ℕ) (x : ℚ) (h : Mat m n M) :
    Mat m n (mset M r c x) := by
  by_cases hr : r < M.length
  · constructor
    · rw [length_mset]; exact h.1
    · intro row hrow
      rcases List.mem_or_eq_of_mem_set hrow with hm | he
      · exact h.2 _ hm
      · rw [he]
        simp only [List.length_set]
        exact mat_rowLen h r (h.1 ▸ hr)
  · rw [mset_out_of_range _ _ _ _ (by omega)]
    exact h

/-! ### colAdd: the inner weight-write loop of BackPropagate -/

lemma colAdd_succ (v : List ℚ) (c n : ℕ) (W : List (List ℚ)) :
    colAdd v c (n + 1) W =
      mset (colAdd v c n W) n c (mget (colAdd v c n W) n c + v.getD n 0) := by
  unfold colAdd
  exact foldl_range_succ _ _ _

lemma length_colAdd (v : List ℚ) (c n : ℕ) (W : List (List ℚ)) :
    (colAdd v c n W).length = W.length := by
  unfold colAdd
  exact foldl_preserves (fun M => M.length = W.length)
    (fun M j => mset M j c (mget M j c + v.getD j 0)) (List.range n) W
    (fun M j hM => by dsimp only; rw [length_mset]; exact hM) rfl

lemma rowLength_colAdd (v : List ℚ) (c n : ℕ) (W : List (List ℚ)) (r : ℕ) :
    ((colAdd v c n W).getD r []).length = (W.getD r []).length := by
  unfold colAdd
  exact foldl_preserves (fun M => (M.getD r []).length = (W.getD r []).length)
    (fun M j => mset M j c (mget M j c + v.getD j 0)) (List.range n) W
    (fun M j hM => by dsimp only; rw [rowLength_mset]; exact hM) rfl

lemma mat_colAdd {m n : ℕ} {W : List (List ℚ)} (v : List ℚ) (c k : ℕ) (h : Mat m n W) :
    Mat m n (colAdd v c k W) := by
  unfold colAdd
  exact foldl_preserves (Mat m n)
    (fun M j => mset M j c (mget M j c + v.getD j 0)) (List.range k) W
    (fun M j hM => mat_mset _ _ _ hM) h

lemma mget_colAdd_ne (v : List ℚ) (c k : ℕ) (W : List (List ℚ)) (r c' : ℕ) (h : c' ≠ c) :
    mget (colAdd v c k W) r c' = mget W r c' := by
  unfold colAdd
  exact foldl_preserves (fun M => mget M r c' = mget W r c')
    (fun M j => mset M j c (mget M j c + v.getD j 0)) (List.range k) W
    (fun M j hM => by
      dsimp only
      rw [mget_mset_ne _ _ _ _ _ _ (Or.inr (Ne.symm h))]
      exact hM) rfl

lemma mget_colAdd_row_ge (v : List ℚ) (c k : ℕ) (W : List (List ℚ)) (r c' : ℕ) (h : k ≤ r) :
    mget (colAdd v c k W) r c' = mget W r c' := by
  induction k with
  | zero => rfl
  | succ n ih =>
    rw [colAdd_succ, mget_mset_ne _ _ _ _ _ _ (Or.inl (by omega))]
    exact ih (by omega)

lemma mget_colAdd_self (v : List ℚ) (c k : ℕ) (W : List (List ℚ)) (j : ℕ) (hj : j < k)
    (hW : j < W.length) (hc : c < (W.getD j []).length) :
    mget (colAdd v c k W) j c = mget W j c + v.getD j 0 := by
  induction k with
  | zero => omega
  | succ n ih =>
    rw [colAdd_succ]
    by_cases hjn : j = n
    · subst hjn
      rw [mget_mset_self _ _ _ _ (by rw [length_colAdd]; exact hW)
          (by rw [rowLength_colAdd]; exact hc)]
      rw [mget_colAdd_row_ge _ _ _ _ _ _ (le_refl _)]
    · rw [mget_mset_ne _ _ _ _ _ _ (Or.inl (Ne.symm hjn))]
      exact ih (by omega)

/-! ### bpLoop: the two weight-update loops of BackPropagate -/

lemma bpLoop_succ (acts deltas : List ℚ) (lRate mFactor : ℚ) (n nRows : ℕ)
    (p0 : List (List ℚ) × List (List ℚ)) :
    bpLoop acts deltas lRate mFactor (n + 1) nRows p0 =
      bpStep acts deltas lRate mFactor nRows (bpLoop acts deltas lRate mFactor n nRows p0) n := by
  unfold bpLoop
  exact foldl_range_succ _ _ _

lemma bpLoop_fst_length (acts deltas : List ℚ) (lRate mFactor : ℚ) (n nRows : ℕ)
    (p0 : List (List ℚ) × List (List ℚ)) :
    (bpLoop acts deltas lRate mFactor n nRows p0).1.length = p0.1.length := by
  induction n with
  | zero => rfl
  | succ k ih =>
    rw [bpLoop_succ]
    simp only [bpStep, List.length_set]
    exact ih

lemma bpLoop_fst_getD_ge (acts deltas : List ℚ) (lRate mFactor : ℚ) (n nRows : ℕ)
    (p0 : List (List ℚ) × List (List ℚ)) (i : ℕ) (h : n ≤ i) :
    (bpLoop acts deltas lRate mFactor n nRows p0).1.getD i [] = p0.1.getD i [] := by
  induction n with
  | zero => rfl
  | succ k ih =>
    rw [bpLoop_succ]
    simp only [bpStep]
    rw [getD_set_ne _ _ _ _ _ (by omega)]
    exact ih (by omega)

lemma bpLoop_snd_mget_ge (acts deltas : List ℚ) (lRate mFactor : ℚ) (n nRows : ℕ)
    (p0 : List (List ℚ) × List (List ℚ)) (i j : ℕ) (h : n ≤ i) :
    mget (bpLoop acts deltas lRate mFactor n nRows p0).2 j i = mget p0.2 j i := by
  induction n with
  | zero => rfl
  | succ k ih =>
    rw [bpLoop_succ]
    simp only [bpStep]
    rw [mget_colAdd_ne _ _ _ _ _ _ (by omega)]
    exact ih (by omega)

lemma bpLoop_snd_mat {a b : ℕ} (acts deltas : List ℚ) (lRate mFactor : ℚ) (n nRows : ℕ)
    (p0 : List (List ℚ) × List (List ℚ)) (h : Mat a b p0.2) :
    Mat a b (bpLoop acts deltas lRate mFactor n nRows p0).2 := by
  unfold bpLoop
  exact foldl_preserves (fun p => Mat a b p.2)
    (bpStep acts deltas lRate mFactor nRows) (List.range n) p0
    (fun p i hp => by
      simp only [bpStep]
      exact mat_colAdd _ _ _ hp) h

lemma bpLoop_fst_mat {a b : ℕ} (acts deltas : List ℚ) (lRate mFactor : ℚ) (n nRows : ℕ)
    (p0 : List (List ℚ) × List (List ℚ)) (h : Mat a b p0.1) :
    Mat a b (bpLoop acts deltas lRate mFactor n nRows p0).1 := by
  unfold bpLoop
  refine foldl_preserves (fun p => Mat a b p.1)
    (bpStep acts deltas lRate mFactor nRows) (List.range n) p0
    (fun p i hp => ?_) h
  simp only [bpStep]
  by_cases hi : i < p.1.length
  · constructor
    · simp only [List.length_set]
      exact hp.1
    · intro row hrow
      rcases List.mem_or_eq_of_mem_set hrow with hm | he
      · exact hp.2 _ hm
      · rw [he, length_goCopy, length_axpy64, length_scal64]
        exact mat_rowLen hp i (hp.1 ▸ hi)
  · rw [List.set_eq_of_length_le (by omega)]
    exact hp

lemma bpLoop_fst_row (acts deltas : List ℚ) (lRate mFactor : ℚ) (n nRows : ℕ)
    (p0 : List (List ℚ) × List (List ℚ)) (i : ℕ) (hi : i < n) (hlen : n ≤ p0.1.length) :
    (bpLoop acts deltas lRate mFactor n nRows p0).1.getD i [] =
      goCopy (axpy64 lRate (scal64 (acts.getD i 0) deltas) (scal64 mFactor (p0.1.getD i [])))
        (scal64 (acts.getD i 0) deltas) := by
  induction n with
  | zero => omega
  | succ k ih =>
    rw [bpLoop_succ]
    simp only [bpStep]
    by_cases hik : i = k
    · subst hik
      rw [getD_set_self _ _ _ _ (by rw [bpLoop_fst_length]; omega)]
      rw [bpLoop_fst_getD_ge _ _ _ _ _ _ _ _ (le_refl i)]
    · rw [getD_set_ne _ _ _ _ _ (Ne.symm hik)]
      exact ih (by omega) (by omega)

lemma bpLoop_snd_mget (ncol : ℕ) (acts deltas : List ℚ) (lRate mFactor : ℚ) (n nRows : ℕ)
    (p0 : List (List ℚ) × List (List ℚ)) (i j : ℕ) (hi : i < n) (hj : j < nRows)
    (hlen : n ≤ p0.1.length) (hmat : Mat nRows ncol p0.2) (hcol : n ≤ ncol) :
    mget (bpLoop acts deltas lRate mFactor n nRows p0).2 j i =
      mget p0.2 j i +
        (axpy64 lRate (scal64 (acts.getD i 0) deltas)
          (scal64 mFactor (p0.1.getD i []))).getD j 0 := by
  induction n with
  | zero => omega
  | succ k ih =>
    rw [bpLoop_succ]
    simp only [bpStep]
    by_cases hik : i = k
    · subst hik
      have hmat2 : Mat nRows ncol (bpLoop acts deltas lRate mFactor i nRows p0).2 :=
        bpLoop_snd_mat _ _ _ _ _ _ _ hmat
      rw [mget_colAdd_self _ _ _ _ _ hj (by rw [hmat2.1]; exact hj)
          (by rw [mat_rowLen hmat2 j hj]; omega)]
      rw [bpLoop_snd_mget_ge _ _ _ _ _ _ _ _ _ (le_refl i)]
      rw [bpLoop_fst_getD_ge _ _ _ _ _ _ _ _ (le_refl i)]
    · rw [mget_colAdd_ne _ _ _ _ _ _ hik]
      exact ih (by omega) (by omega) (by omega)

/-! ### fillCol / fillSeq: the SetWeights double loops -/

lemma fillCol_succ (w : List ℚ) (i n : ℕ) (q0 : List (List ℚ) × ℕ) :
    fillCol w i (n + 1) q0 =
      (mset (fillCol w i n q0).1 n i (w.getD (fillCol w i n q0).2 0),
        (fillCol w i n q0).2 + 1) := by
  unfold fillCol
  exact foldl_range_succ _ _ _

lemma fillCol_snd (w : List ℚ) (i n : ℕ) (q0 : List (List ℚ) × ℕ) :
    (fillCol w i n q0).2 = q0.2 + n := by
  induction n with
  | zero => rfl
  | succ k ih =>
    rw [fillCol_succ]
    dsimp only
    omega

lemma fillCol_mat {a b : ℕ} (w : List ℚ) (i n : ℕ) (q0 : List (List ℚ) × ℕ)
    (h : Mat a b q0.1) : Mat a b (fillCol w i n q0).1 := by
  unfold fillCol
  exact foldl_preserves (fun q => Mat a b q.1)
    (fun q j => (mset q.1 j i (w.getD q.2 0), q.2 + 1)) (List.range n) q0
    (fun q j hq => mat_mset _ _ _ hq) h

lemma mget_fillCol_ne_col (w : List ℚ) (i n : ℕ) (q0 : List (List ℚ) × ℕ) (r c' : ℕ)
    (h : c' ≠ i) : mget (fillCol w i n q0).1 r c' = mget q0.1 r c' := by
  unfold fillCol
  exact foldl_preserves (fun q => mget q.1 r c' = mget q0.1 r c')
    (fun q j => (mset q.1 j i (w.getD q.2 0), q.2 + 1)) (List.range n) q0
    (fun q j hq => by
      dsimp only
      rw [mget_mset_ne _ _ _ _ _ _ (Or.inr (Ne.symm h))]
      exact hq) rfl

lemma mget_fillCol_row_ge (w : List ℚ) (i n : ℕ) (q0 : List (List ℚ) × ℕ) (r c' : ℕ)
    (h : n ≤ r) : mget (fillCol w i n q0).1 r c' = mget q0.1 r c' := by
  induction n with
  | zero => rfl
  | succ k ih =>
    rw [fillCol_succ]
    dsimp only
    rw [mget_mset_ne _ _ _ _ _ _ (Or.inl (by omega))]
    exact ih (by omega)

lemma mget_fillCol_self (w : List ℚ) (i n : ℕ) (q0 : List (List ℚ) × ℕ) (j : ℕ) (hj : j < n)
    (hW : j < q0.1.length) (hc : i < (q0.1.getD j []).length) :
    mget (fillCol w i n q0).1 j i = w.getD (q0.2 + j) 0 := by
  induction n with
  | zero => omega
  | succ k ih =>
    rw [fillCol_succ]
    dsimp only
    by_cases hjk : j = k
    · subst hjk
      have hlen : (fillCol w i j q0).1.length = q0.1.length := by
        unfold fillCol
        exact foldl_preserves (fun q => q.1.length = q0.1.length)
          (fun q j => (mset q.1 j i (w.getD q.2 0), q.2 + 1)) (List.range j) q0
          (fun q jj hq => by dsimp only; rw [length_mset]; exact hq) rfl
      have hrow : ((fillCol w i j q0).1.getD j []).length = (q0.1.getD j []).length := by
        unfold fillCol
        exact foldl_preserves (fun q => (q.1.getD j []).length = (q0.1.getD j []).length)
          (fun q jj => (mset q.1 jj i (w.getD q.2 0), q.2 + 1)) (List.range j) q0
          (fun q jj hq => by dsimp only; rw [rowLength_mset]; exact hq) rfl
      rw [mget_mset_self _ _ _ _ (by rw [hlen]; exact hW) (by rw [hrow]; exact hc)]
      rw [fillCol_snd]
    · rw [mget_mset_ne _ _ _ _ _ _ (Or.inl (Ne.symm hjk))]
      exact ih (by omega)

lemma fillSeq_succ (w : List ℚ) (nC nR : ℕ) (p0 : List (List ℚ) × ℕ) :
    fillSeq w (nC + 1) nR p0 = fillCol w nC nR (fillSeq w nC nR p0) := by
  unfold fillSeq
  exact foldl_range_succ _ _ _

lemma fillSeq_snd (w : List ℚ) (nC nR : ℕ) (p0 : List (List ℚ) × ℕ) :
    (fillSeq w nC nR p0).2 = p0.2 + nC * nR := by
  induction nC with
  | zero => simp [fillSeq]
  | succ k ih =>
    rw [fillSeq_succ, fillCol_snd, ih]
    ring

lemma fillSeq_mat {a b : ℕ} (w : List ℚ) (nC nR : ℕ) (p0 : List (List ℚ) × ℕ)
    (h : Mat a b p0.1) : Mat a b (fillSeq w nC nR p0).1 := by
  unfold fillSeq
  exact foldl_preserves (fun p => Mat a b p.1)
    (fun p i => fillCol w i nR p) (List.range nC) p0
    (fun p i hp => fillCol_mat _ _ _ _ hp) h

lemma mget_fillSeq {a b : ℕ} (w : List ℚ) (nC nR : ℕ) (p0 : List (List ℚ) × ℕ)
    (hmat : Mat a b p0.1) (hra : nR ≤ a) (hcb : nC ≤ b) (i j : ℕ) (hi : i < nC) (hj : j < nR) :
    mget (fillSeq w nC nR p0).1 j i = w.getD (p0.2 + i * nR + j) 0 := by
  induction nC with
  | zero => omega
  | succ k ih =>
    rw [fillSeq_succ]
    by_cases hik : i = k
    · subst hik
      have hmat2 : Mat a b (fillSeq w i nR p0).1 := fillSeq_mat _ _ _ _ hmat
      rw [mget_fillCol_self _ _ _ _ _ hj (by rw [hmat2.1]; omega)
          (by rw [mat_rowLen hmat2 j (by omega)]; omega)]
      rw [fillSeq_snd]
    · rw [mget_fillCol_ne_col _ _ _ _ _ _ hik]
      exact ih (by omega) (by omega)

/-! ### fillMatrix: the Init weight-fill loops -/

lemma mat_fillMatrix {a b : ℕ} (rnd : ℕ → ℕ → ℚ) (nC nR : ℕ) (M0 : List (List ℚ))
    (h : Mat a b M0) : Mat a b (fillMatrix rnd nC nR M0) := by
  unfold fillMatrix
  refine foldl_preserves (Mat a b)
    (fun M i => (List.range nR).foldl (fun M j => mset M j i (rnd i j)) M) (List.range nC) M0
    (fun M i hM => ?_) h
  exact foldl_preserves (Mat a b)
    (fun M j => mset M j i (rnd i j)) (List.range nR) M
    (fun M j hM2 => mat_mset _ _ _ hM2) hM

/-! ### fillFrom: the input-copy loop of update -/

lemma fillFrom_succ (dst src : List ℚ) (m : ℕ) :
    fillFrom dst src (m + 1) = (fillFrom dst src m).set m (src.getD m 0) := by
  unfold fillFrom
  exact foldl_range_succ _ _ _

lemma length_fillFrom (dst src : List ℚ) (m : ℕ) :
    (fillFrom dst src m).length = dst.length := by
  unfold fillFrom
  exact foldl_preserves (fun A => A.length = dst.length)
    (fun A i => A.set i (src.getD i 0)) (List.range m) dst
    (fun A i hA => by dsimp only; rw [List.length_set]; exact hA) rfl

lemma getD_fillFrom_ge (dst src : List ℚ) (m j : ℕ) (d : ℚ) (h : m ≤ j) :
    (fillFrom dst src m).getD j d = dst.getD j d := by
  induction m with
  | zero => rfl
  | succ k ih =>
    rw [fillFrom_succ, getD_set_ne _ _ _ _ _ (by omega)]
    exact ih (by omega)

/-! ### shiftCtx: the context-update block of update -/

lemma shiftFold_length (m : ℕ) (A : List CtxRef) :
    ((downList m).foldl (fun A i => A.set i (A.getD (i - 1) (CtxRef.own []))) A).length =
      A.length := by
  induction m generalizing A with
  | zero => rfl
  | succ n ih =>
    simp only [downList, List.foldl_cons]
    rw [ih]
    simp

lemma shiftFold_getElem? (m : ℕ) (A : List CtxRef) (hm : m < A.length) (j : ℕ) :
    ((downList m).foldl (fun A i => A.set i (A.getD (i - 1) (CtxRef.own []))) A)[j]? =
      if 1 ≤ j ∧ j ≤ m then A[j - 1]? else A[j]? := by
  induction m generalizing A with
  | zero =>
    rw [if_neg (by omega)]
    rfl
  | succ n ih =>
    simp only [downList, List.foldl_cons]
    rw [show n + 1 - 1 = n by omega]
    have hlen1 : n < (A.set (n + 1) (A.getD n (CtxRef.own []))).length := by
      simp
      omega
    rw [ih _ hlen1]
    by_cases h1 : 1 ≤ j ∧ j ≤ n
    · rw [if_pos h1, if_pos (by omega)]
      rw [List.getElem?_set, if_neg (by omega : ¬ (n + 1 = j - 1))]
    · rw [if_neg h1]
      by_cases hj : j = n + 1
      · subst hj
        rw [if_pos (by omega)]
        have hn : n < A.length := by omega
        rw [List.getElem?_set, if_pos rfl, if_pos hm]
        rw [show n + 1 - 1 = n by omega]
        rw [List.getD_eq_getElem?_getD, List.getElem?_eq_getElem hn]
        simp
      · rw [if_neg (by omega)]
        rw [List.getElem?_set, if_neg (by omega : ¬ (n + 1 = j))]

lemma shiftCtx_eq (C : List CtxRef) (h : C ≠ []) :
    shiftCtx C = CtxRef.hid :: C.dropLast := by
  have hlen : 0 < C.length := List.length_pos.mpr h
  unfold shiftCtx
  rw [if_pos hlen]
  apply List.ext_getElem?
  intro j
  cases j with
  | zero =>
    rw [List.getElem?_cons_zero]
    have hb : 0 < ((downList (C.length - 1)).foldl
        (fun A i => A.set i (A.getD (i - 1) (CtxRef.own []))) C).length := by
      rw [shiftFold_length]
      exact hlen
    rw [List.getElem?_set, if_pos rfl, if_pos hb]
  | succ j =>
    rw [List.getElem?_cons_succ]
    have hne : (0 : ℕ) ≠ j + 1 := by omega
    simp only [List.getElem?_set, if_neg hne]
    rw [shiftFold_getElem? _ _ (by omega)]
    rw [List.dropLast_eq_take, List.getElem?_take]
    by_cases hcase : j + 1 ≤ C.length - 1
    · rw [if_pos (by omega), if_pos (by omega)]
      simp
    · rw [if_neg (by omega), if_neg (by omega)]
      exact List.getElem?_eq_none (by omega)

lemma shiftCtx_nil : shiftCtx [] = [] := rfl

/-! ### ctxSum and hiddenPass: context reads and the hidden-unit loop -/

lemma mapM_range_getElem_isSome (v : List ℚ) (m : ℕ) :
    ((List.range m).mapM (fun j => v[j]?)).isSome ↔ m ≤ v.length := by
  induction m with
  | zero =>
    exact ⟨fun _ => Nat.zero_le _, fun _ => rfl⟩
  | succ n ih =>
    rw [List.range_succ, List.mapM_append]
    constructor
    · intro hs
      cases h1 : (List.range n).mapM (fun j => v[j]?) with
      | none => rw [h1] at hs; simp at hs
      | some xs =>
        rw [h1] at hs
        cases hv : v[n]? with
        | none =>
          rw [List.mapM_cons] at hs
          rw [hv] at hs
          simp at hs
        | some y =>
          have hn : n < v.length := (getElem?_isSome_iff v n).mp (by rw [hv]; rfl)
          omega
    · intro hle
      obtain ⟨xs, h1⟩ := Option.isSome_iff_exists.mp (ih.mpr (by omega))
      have h2 : v[n]?.isSome := (getElem?_isSome_iff v n).mpr (by omega)
      obtain ⟨y, hy⟩ := Option.isSome_iff_exists.mp h2
      rw [h1, List.mapM_cons, hy]
      rfl

lemma sumFirst_isSome (v : List ℚ) (m : ℕ) : (sumFirst v m).isSome ↔ m ≤ v.length := by
  unfold sumFirst
  rw [Option.isSome_map']
  exact mapM_range_getElem_isSome v m

lemma mapM_sumFirst_isSome (hAct : List ℚ) (m : ℕ) (ctxs : List CtxRef) :
    ((ctxs.mapM (fun c => sumFirst (readCtx hAct c) m)).isSome ↔
      ∀ c ∈ ctxs, m ≤ (readCtx hAct c).length) := by
  induction ctxs with
  | nil =>
    exact ⟨fun _ => by simp, fun _ => rfl⟩
  | cons c cs ih =>
    rw [List.mapM_cons]
    constructor
    · intro hs
      cases h1 : sumFirst (readCtx hAct c) m with
      | none => rw [h1] at hs; simp at hs
      | some s =>
        cases h2 : cs.mapM (fun c => sumFirst (readCtx hAct c) m) with
        | none => rw [h1, h2] at hs; simp at hs
        | some ss =>
          intro x hx
          rcases List.mem_cons.mp hx with hxc | hxcs
          · subst hxc
            exact (sumFirst_isSome _ _).mp (by rw [h1]; rfl)
          · exact (ih.mp (by rw [h2]; rfl)) x hxcs
    · intro hall
      obtain ⟨s, h1⟩ := Option.isSome_iff_exists.mp
        ((sumFirst_isSome _ _).mpr (hall c (List.mem_cons_self c cs)))
      obtain ⟨ss, h2⟩ := Option.isSome_iff_exists.mp
        (ih.mpr (fun x hx => hall x (List.mem_cons_of_mem c hx)))
      rw [h1, h2]
      simp

lemma ctxSum_isSome (hAct : List ℚ) (ctxs : List CtxRef) (m : ℕ) :
    (ctxSum hAct ctxs m).isSome ↔ ∀ c ∈ ctxs, m ≤ (readCtx hAct c).length := by
  unfold ctxSum
  rw [Option.isSome_map']
  exact mapM_sumFirst_isSome hAct m ctxs

lemma ctxSum_own_isSome (hAct : List ℚ) (vs : List (List ℚ)) (m : ℕ) :
    (ctxSum hAct (vs.map CtxRef.own) m).isSome ↔ ∀ v ∈ vs, m ≤ v.length := by
  rw [ctxSum_isSome]
  constructor
  · intro H v hv
    exact H _ (List.mem_map_of_mem _ hv)
  · intro H c hc
    obtain ⟨v, hv, rfl⟩ := List.mem_map.mp hc
    exact H v hv

lemma hiddenStep_some_length (act : ℚ → ℚ) (train : Bool) (dropRate : ℚ) (rnd : ℕ → ℚ)
    (inActs : List ℚ) (IW : List (List ℚ)) (ctxs : List CtxRef) (m : ℕ) (h : List ℚ) (i : ℕ)
    (h1 : List ℚ) (hstep : hiddenStep act train dropRate rnd inActs IW ctxs m h i = some h1) :
    h1.length = h.length := by
  unfold hiddenStep at hstep
  cases hcs : ctxSum h ctxs m with
  | none => rw [hcs] at hstep; simp at hstep
  | some s =>
    rw [hcs] at hstep
    simp only [Option.map_some', Option.some.injEq] at hstep
    rw [← hstep]
    simp

lemma foldlM_hiddenStep_length (act : ℚ → ℚ) (train : Bool) (dropRate : ℚ) (rnd : ℕ → ℚ)
    (inActs : List ℚ) (IW : List (List ℚ)) (ctxs : List CtxRef) (m : ℕ) (l : List ℕ) :
    ∀ (h0 hh : List ℚ),
      l.foldlM (hiddenStep act train dropRate rnd inActs IW ctxs m) h0 = some hh →
        hh.length = h0.length := by
  induction l with
  | nil =>
    intro h0 hh hfold
    rw [List.foldlM_nil] at hfold
    exact (Option.some.inj hfold).symm ▸ rfl
  | cons x xs ih =>
    intro h0 hh hfold
    rw [List.foldlM_cons] at hfold
    cases hstep : hiddenStep act train dropRate rnd inActs IW ctxs m h0 x with
    | none => rw [hstep] at hfold; simp at hfold
    | some h1 =>
      rw [hstep] at hfold
      rw [ih h1 hh hfold]
      exact hiddenStep_some_length _ _ _ _ _ _ _ _ _ _ _ hstep

lemma hiddenPass_some_length (act : ℚ → ℚ) (train : Bool) (dropRate : ℚ) (rnd : ℕ → ℚ)
    (inActs : List ℚ) (IW : List (List ℚ)) (ctxs : List CtxRef) (m : ℕ) (h0 hh : List ℚ)
    (hp : hiddenPass act train dropRate rnd inActs IW ctxs m h0 = some hh) :
    hh.length = h0.length :=
  foldlM_hiddenStep_length act train dropRate rnd inActs IW ctxs m (List.range m) h0 hh hp

lemma hiddenPass_own_isSome (act : ℚ → ℚ) (train : Bool) (dropRate : ℚ) (rnd : ℕ → ℚ)
    (inActs : List ℚ) (IW : List (List ℚ)) (vs : List (List ℚ)) (m : ℕ) (h0 : List ℚ) :
    (hiddenPass act train dropRate rnd inActs IW (vs.map CtxRef.own) m h0).isSome ↔
      ∀ v ∈ vs, m ≤ v.length := by
  unfold hiddenPass
  constructor
  · intro hs
    cases m with
    | zero => intro v hv; exact Nat.zero_le _
    | succ k =>
      rw [List.range_succ_eq_map, List.foldlM_cons] at hs
      cases hstep : hiddenStep act train dropRate rnd inActs IW (vs.map CtxRef.own) (k + 1) h0 0 with
      | none => rw [hstep] at hs; simp at hs
      | some h1 =>
        have hcs : (ctxSum h0 (vs.map CtxRef.own) (k + 1)).isSome := by
          unfold hiddenStep at hstep
          cases hcs2 : ctxSum h0 (vs.map CtxRef.own) (k + 1) with
          | none => rw [hcs2] at hstep; simp at hstep
          | some s => rfl
        exact (ctxSum_own_isSome _ _ _).mp hcs
  · intro hcond
    have key : ∀ (l : List ℕ) (h : List ℚ),
        (l.foldlM (hiddenStep act train dropRate rnd inActs IW (vs.map CtxRef.own) m) h).isSome := by
      intro l
      induction l with
      | nil =>
        intro h
        rw [List.foldlM_nil]
        rfl
      | cons x xs ih =>
        intro h
        rw [List.foldlM_cons]
        obtain ⟨s, hs⟩ := Option.isSome_iff_exists.mp
          ((ctxSum_own_isSome h vs m).mpr hcond)
        unfold hiddenStep
        rw [hs]
        simp only [Option.map_some', Option.some_bind]
        exact ih _
    exact key _ _

/-! ### updateGo elimination -/

lemma updateGo_some_elim (act : ℚ → ℚ) (train : Bool) (rnd : ℕ → ℚ) (nn : FeedForward)
    (inputs : List ℚ) (nn2 : FeedForward)
    (hu : updateGo act train rnd nn inputs = some nn2) :
    inputs.length = nn.NInputs - 1 ∧
    ∃ hh, hiddenPass act train nn.Dropout rnd
        (fillFrom nn.InputActivations inputs (nn.NInputs - 1)) nn.InputWeights nn.Contexts
        (nn.NHiddens - 1) nn.HiddenActivations = some hh ∧
      nn2 = { nn with
              InputActivations := fillFrom nn.InputActivations inputs (nn.NInputs - 1)
              HiddenActivations := hh
              Contexts := shiftCtx nn.Contexts
              OutputActivations :=
                if nn.Regression = true then
                  (List.range nn.NOutputs).map (fun i => dot64 hh (nn.OutputWeights.getD i []))
                else
                  (List.range nn.NOutputs).map
                    (fun i => act (dot64 hh (nn.OutputWeights.getD i []))) } := by
  unfold updateGo at hu
  by_cases hlen : inputs.length = nn.NInputs - 1
  · rw [if_neg (by simp [hlen])] at hu
    refine ⟨hlen, ?_⟩
    cases hhp : hiddenPass act train nn.Dropout rnd
        (fillFrom nn.InputActivations inputs (nn.NInputs - 1)) nn.InputWeights nn.Contexts
        (nn.NHiddens - 1) nn.HiddenActivations with
    | none => rw [hhp] at hu; simp at hu
    | some hh =>
      rw [hhp] at hu
      simp only [Option.some.injEq] at hu
      exact ⟨hh, rfl, hu.symm⟩
  · rw [if_pos (by simp [hlen])] at hu
    simp at hu

/-! ### BackPropagate elimination and error-fold lemmas -/

lemma length_outputDeltas (nn : FeedForward) (targets : List ℚ) :
    (outputDeltas nn targets).length = nn.NOutputs := by
  unfold outputDeltas
  by_cases hr : nn.Regression = true
  · rw [if_pos hr]; simp
  · rw [if_neg hr]; simp

lemma length_hiddenDeltas (nn : FeedForward) (od : List ℚ) :
    (hiddenDeltas nn od).length = nn.NHiddens := by
  unfold hiddenDeltas
  simp

lemma backPropagate_some_elim (nn : FeedForward) (targets : List ℚ) (lRate mFactor : ℚ)
    (nn2 : FeedForward) (e : ℚ)
    (hbp : BackPropagate nn targets lRate mFactor = some (nn2, e)) :
    targets.length = nn.NOutputs ∧
    nn2 = { nn with
            OutputChanges := (bpLoop nn.HiddenActivations (outputDeltas nn targets) lRate mFactor
              nn.NHiddens nn.NOutputs (nn.OutputChanges, nn.OutputWeights)).1
            OutputWeights := (bpLoop nn.HiddenActivations (outputDeltas nn targets) lRate mFactor
              nn.NHiddens nn.NOutputs (nn.OutputChanges, nn.OutputWeights)).2
            InputChanges := (bpLoop nn.InputActivations
              (hiddenDeltas nn (outputDeltas nn targets)) lRate mFactor nn.NInputs nn.NHiddens
              (nn.InputChanges, nn.InputWeights)).1
            InputWeights := (bpLoop nn.InputActivations
              (hiddenDeltas nn (outputDeltas nn targets)) lRate mFactor nn.NInputs nn.NHiddens
              (nn.InputChanges, nn.InputWeights)).2 } ∧
    e = (List.range targets.length).foldl
      (fun e i => e + (targets.getD i 0 - nn.OutputActivations.getD i 0) ^ 2) 0 := by
  unfold BackPropagate at hbp
  by_cases ht : targets.length = nn.NOutputs
  · rw [if_neg (by simp [ht])] at hbp
    simp only [Option.some.injEq, Prod.mk.injEq] at hbp
    exact ⟨ht, hbp.1.symm, hbp.2.symm⟩
  · rw [if_pos (by simp [ht])] at hbp
    simp at hbp

lemma foldl_add_eq_sum (f : ℕ → ℚ) (n : ℕ) :
    (List.range n).foldl (fun e i => e + f i) 0 = ∑ i ∈ Finset.range n, f i := by
  induction n with
  | zero => simp
  | succ k ih =>
    rw [foldl_range_succ, ih, Finset.sum_range_succ]

/-! ## The claims -/

/-- C7: a forward pass supplied with an input vector whose length differs
from the configured input size fails with the invalid-input error (modelled
as none: log.Fatal aborts the call).  The length check is the first
statement of update, before any buffer write, so no activation buffer is
mutated by the failing call: no post-state exists. -/
theorem update_wrong_length_fails (act : ℚ → ℚ) (train : Bool) (rnd : ℕ → ℚ)
    (nn : FeedForward) (inputs : List ℚ) (h : inputs.length ≠ nn.NInputs - 1) :
    updateGo act train rnd nn inputs = none := by
  unfold updateGo
  rw [if_pos h]

theorem update_wrong_length_fails_witness :
    updateGo (fun x => x) false (fun _ => 0) nilNN [1] = none :=
  update_wrong_length_fails _ _ _ _ _ (by decide)

/-- C6: on every forward pass of a network with at least one context
buffer, and only then, the context list is shifted exactly once: entry i
(i > 0) receives the entry previously at i-1, the oldest entry is
discarded, and the reference to the hidden-activation buffer just computed
in that pass is placed at index 0 (reading it yields the new hidden
activations).  With no contexts configured the context list is untouched. -/
theorem update_context_shift (act : ℚ → ℚ) (train : Bool) (rnd : ℕ → ℚ)
    (nn nn2 : FeedForward) (inputs : List ℚ)
    (hu : updateGo act train rnd nn inputs = some nn2) :
    (nn.Contexts = [] → nn2.Contexts = []) ∧
    (nn.Contexts ≠ [] → nn2.Contexts = CtxRef.hid :: nn.Contexts.dropLast) ∧
    readCtx nn2.HiddenActivations CtxRef.hid = nn2.HiddenActivations := by
  obtain ⟨hlen, hh, hhp, hnn2⟩ := updateGo_some_elim _ _ _ _ _ _ hu
  subst hnn2
  refine ⟨?_, ?_, rfl⟩
  · intro hc
    show shiftCtx nn.Contexts = []
    rw [hc]
    exact shiftCtx_nil
  · intro hc
    show shiftCtx nn.Contexts = CtxRef.hid :: nn.Contexts.dropLast
    exact shiftCtx_eq _ hc

theorem update_context_shift_witness :
    (c6NN.Contexts = [] → c6NN1.Contexts = []) ∧
    (c6NN.Contexts ≠ [] → c6NN1.Contexts = CtxRef.hid :: c6NN.Contexts.dropLast) ∧
    readCtx c6NN1.HiddenActivations CtxRef.hid = c6NN1.HiddenActivations :=
  update_context_shift (fun x => x) false (fun _ => 0) c6NN c6NN1 []
    (by norm_num [updateGo, fillFrom, hiddenPass, shiftCtx, downList, dot64, c6NN, c6NN1,
      List.range_succ])

/-- C8: with the regression flag set, every successful forward pass leaves
each output activation equal to the raw weighted sum
dot64(hiddenActivations, outputWeights[i]), with no squashing applied. -/
theorem update_regression_raw_sum (act : ℚ → ℚ) (train : Bool) (rnd : ℕ → ℚ)
    (nn nn2 : FeedForward) (inputs : List ℚ) (hr : nn.Regression = true)
    (hu : updateGo act train rnd nn inputs = some nn2) :
    ∀ i < nn.NOutputs, nn2.OutputActivations.getD i 0 =
      dot64 nn2.HiddenActivations (nn2.OutputWeights.getD i []) := by
  obtain ⟨hlen, hh, hhp, hnn2⟩ := updateGo_some_elim _ _ _ _ _ _ hu
  subst hnn2
  intro i hi
  show (if nn.Regression = true then
      (List.range nn.NOutputs).map (fun i => dot64 hh (nn.OutputWeights.getD i []))
    else
      (List.range nn.NOutputs).map
        (fun i => act (dot64 hh (nn.OutputWeights.getD i [])))).getD i 0 = _
  rw [if_pos hr]
  exact getD_range_map _ _ _ _ hi

/-- C5: BackPropagate (on success) returns the error as the plain sum over
the target indices of the squared difference between the target and the
(unchanged) most recent output activation - no 0.5 factor and no
averaging. -/
theorem backPropagate_error_sum_sq (nn : FeedForward) (targets : List ℚ) (lRate mFactor : ℚ)
    (nn2 : FeedForward) (e : ℚ)
    (hbp : BackPropagate nn targets lRate mFactor = some (nn2, e)) :
    targets.length = nn.NOutputs ∧
    nn2.OutputActivations = nn.OutputActivations ∧
    e = ∑ i ∈ Finset.range targets.length,
      (targets.getD i 0 - nn.OutputActivations.getD i 0) ^ 2 := by
  obtain ⟨ht, hnn2, he⟩ := backPropagate_some_elim _ _ _ _ _ _ hbp
  subst hnn2
  refine ⟨ht, rfl, ?_⟩
  rw [he]
  exact foldl_add_eq_sum _ _

theorem update_regression_raw_sum_witness :
    c8NN1.OutputActivations.getD 0 0 =
      dot64 c8NN1.HiddenActivations (c8NN1.OutputWeights.getD 0 []) :=
  update_regression_raw_sum (fun x => x) false (fun _ => 0) c8NN c8NN1 [] (by decide)
    (by norm_num [updateGo, fillFrom, hiddenPass, shiftCtx, dot64, c8NN, c8NN1,
      List.range_succ]) 0 (by decide)

theorem backPropagate_error_sum_sq_witness :
    ([(1 : ℚ)].length = c5NN.NOutputs ∧
      c5NN2.OutputActivations = c5NN.OutputActivations ∧
      (4 : ℚ) = ∑ i ∈ Finset.range [(1 : ℚ)].length,
        (([(1 : ℚ)]).getD i 0 - c5NN.OutputActivations.getD i 0) ^ 2) :=
  backPropagate_error_sum_sq c5NN [1] 2 0 c5NN2 4
    (by norm_num [BackPropagate, outputDeltas, hiddenDeltas, bpLoop, bpStep, colAdd, scal64,
      axpy64, goCopy, mget, mset, dsigmoid, c5NN, c5NN2, List.range_succ])

/-- C2: after any two consecutive forward passes of a network with at least
two context buffers (and no intervening SetContexts), the entries
Contexts[0] and Contexts[1] are both the stored reference to the live
hidden-activation buffer: dereferencing either yields exactly the most
recently computed hidden activations, so the network retains no distinct
older hidden state in Contexts[1].  This is a consequence of the context
update storing the slice reference rather than a copy. -/
theorem contexts_alias_hidden_after_two_updates (act : ℚ → ℚ) (nn nn1 nn2 : FeedForward)
    (i1 i2 : List ℚ) (hc : 2 ≤ nn.Contexts.length)
    (h1 : Update act nn i1 = some nn1) (h2 : Update act nn1 i2 = some nn2) :
    nn2.Contexts.getD 0 (CtxRef.own []) = CtxRef.hid ∧
    nn2.Contexts.getD 1 (CtxRef.own []) = CtxRef.hid ∧
    readCtx nn2.HiddenActivations (nn2.Contexts.getD 0 (CtxRef.own [])) =
      nn2.HiddenActivations ∧
    readCtx nn2.HiddenActivations (nn2.Contexts.getD 1 (CtxRef.own [])) =
      nn2.HiddenActivations := by
  obtain ⟨_, hh1, hp1, he1⟩ := updateGo_some_elim _ _ _ _ _ _ h1
  obtain ⟨_, hh2, hp2, he2⟩ := updateGo_some_elim _ _ _ _ _ _ h2
  have hne : nn.Contexts ≠ [] := by
    intro h0
    rw [h0] at hc
    simp at hc
  have hdne : nn.Contexts.dropLast ≠ [] := by
    have hdl : nn.Contexts.dropLast.length = nn.Contexts.length - 1 := List.length_dropLast _
    intro h0
    rw [h0] at hdl
    simp at hdl
    omega
  have hctx1 : nn1.Contexts = CtxRef.hid :: nn.Contexts.dropLast := by
    rw [he1]
    show shiftCtx nn.Contexts = _
    exact shiftCtx_eq _ hne
  have hctx2 : nn2.Contexts =
      CtxRef.hid :: CtxRef.hid :: nn.Contexts.dropLast.dropLast := by
    rw [he2]
    show shiftCtx nn1.Contexts = _
    rw [hctx1, shiftCtx_eq _ (by simp), List.dropLast_cons_of_ne_nil hdne]
  rw [hctx2]
  exact ⟨rfl, rfl, rfl, rfl⟩

theorem contexts_alias_hidden_after_two_updates_witness :
    ctxNN2.Contexts.getD 0 (CtxRef.own []) = CtxRef.hid ∧
    ctxNN2.Contexts.getD 1 (CtxRef.own []) = CtxRef.hid ∧
    readCtx ctxNN2.HiddenActivations (ctxNN2.Contexts.getD 0 (CtxRef.own [])) =
      ctxNN2.HiddenActivations ∧
    readCtx ctxNN2.HiddenActivations (ctxNN2.Contexts.getD 1 (CtxRef.own [])) =
      ctxNN2.HiddenActivations :=
  contexts_alias_hidden_after_two_updates (fun x => x) ctxNN ctxNN1 ctxNN2 [] []
    (by decide)
    (by norm_num [Update, updateGo, fillFrom, hiddenPass, shiftCtx, downList, dot64,
      ctxNN, ctxNN1, List.range_succ])
    (by norm_num [Update, updateGo, fillFrom, hiddenPass, shiftCtx, downList, dot64,
      ctxNN, ctxNN1, ctxNN2, List.range_succ])

/-- C9: the input-activation buffer is allocated by Init with length
inputSize+1 and the bias slot (index inputSize) holds 1.0; and every
successful forward pass writes only the first NInputs-1 slots, preserving
both the buffer length and the bias slot's value. -/
theorem input_bias_slot_invariant :
    (∀ (base : FeedForward) (ins hid outs : ℕ) (rI rO : ℕ → ℕ → ℚ),
      (Init base ins hid outs rI rO).InputActivations.length = ins + 1 ∧
      (Init base ins hid outs rI rO).InputActivations.getD ins 0 = 1) ∧
    (∀ (act : ℚ → ℚ) (train : Bool) (rnd : ℕ → ℚ) (nn nn2 : FeedForward) (inputs : List ℚ),
      updateGo act train rnd nn inputs = some nn2 →
        nn2.InputActivations.length = nn.InputActivations.length ∧
        nn2.InputActivations.getD (nn.NInputs - 1) 0 =
          nn.InputActivations.getD (nn.NInputs - 1) 0) := by
  constructor
  · intro base ins hid outs rI rO
    constructor
    · show (vector (ins + 1) 1).length = ins + 1
      simp [vector]
    · show (vector (ins + 1) 1).getD ins 0 = 1
      unfold vector
      rw [List.getD_eq_getElem?_getD, List.getElem?_replicate, if_pos (by omega)]
      rfl
  · intro act train rnd nn nn2 inputs hu
    obtain ⟨hlen, hh, hhp, hnn2⟩ := updateGo_some_elim _ _ _ _ _ _ hu
    subst hnn2
    constructor
    · show (fillFrom nn.InputActivations inputs (nn.NInputs - 1)).length = _
      exact length_fillFrom _ _ _
    · show (fillFrom nn.InputActivations inputs (nn.NInputs - 1)).getD (nn.NInputs - 1) 0 = _
      exact getD_fillFrom_ge _ _ _ _ _ (le_refl _)

theorem input_bias_slot_invariant_witness :
    ((Init nilNN 1 1 1 zRnd zRnd).InputActivations.length = 2 ∧
      (Init nilNN 1 1 1 zRnd zRnd).InputActivations.getD 1 0 = 1) ∧
    (c9NN1.InputActivations.length = c9NN.InputActivations.length ∧
      c9NN1.InputActivations.getD (c9NN.NInputs - 1) 0 =
        c9NN.InputActivations.getD (c9NN.NInputs - 1) 0) :=
  ⟨input_bias_slot_invariant.1 nilNN 1 1 1 zRnd zRnd,
    input_bias_slot_invariant.2 (fun x => x) false (fun _ => 0) c9NN c9NN1 [5]
      (by norm_num [updateGo, fillFrom, hiddenPass, shiftCtx, dot64, c9NN, c9NN1,
        List.range_succ])⟩

/-- C10: SetContexts installs caller-supplied context buffers with no
length validation, and a subsequent forward pass (with a valid-length
input) performs all its context reads in bounds exactly when every
supplied buffer has length at least NHiddens-1, the number of non-bias
hidden units: under that precondition the Option-valued context read never
takes its none branch and Update succeeds, while any shorter buffer makes
the first Update fail. -/
theorem setContexts_no_validation_update_bounds (act : ℚ → ℚ) (train : Bool) (rnd : ℕ → ℚ)
    (nn : FeedForward) (k : ℕ) (vs : List (List ℚ)) (inputs : List ℚ)
    (hin : inputs.length = nn.NInputs - 1) :
    (SetContexts nn k (some vs)).Contexts = vs.map CtxRef.own ∧
    ((updateGo act train rnd (SetContexts nn k (some vs)) inputs).isSome ↔
      ∀ v ∈ vs, nn.NHiddens - 1 ≤ v.length) := by
  refine ⟨rfl, ?_⟩
  have hiff := hiddenPass_own_isSome act train nn.Dropout rnd
    (fillFrom nn.InputActivations inputs (nn.NInputs - 1)) nn.InputWeights vs
    (nn.NHiddens - 1) nn.HiddenActivations
  unfold updateGo
  rw [if_neg (by simp [SetContexts, hin])]
  simp only [SetContexts]
  constructor
  · intro hs
    cases hp : hiddenPass act train nn.Dropout rnd
        (fillFrom nn.InputActivations inputs (nn.NInputs - 1)) nn.InputWeights
        (vs.map CtxRef.own) (nn.NHiddens - 1) nn.HiddenActivations with
    | none =>
      rw [hp] at hs
      simp at hs
    | some hh =>
      exact hiff.mp (by rw [hp]; rfl)
  · intro hcond
    obtain ⟨hh, hp⟩ := Option.isSome_iff_exists.mp (hiff.mpr hcond)
    rw [hp]
    rfl

theorem setContexts_no_validation_update_bounds_witness :
    (SetContexts c10NN 5 (some [[6], []])).Contexts = [[6], []].map CtxRef.own ∧
    ((updateGo (fun x => x) false (fun _ => 0) (SetContexts c10NN 5 (some [[6], []]))
        []).isSome ↔
      ∀ v ∈ [[(6 : ℚ)], []], c10NN.NHiddens - 1 ≤ v.length) :=
  setContexts_no_validation_update_bounds (fun x => x) false (fun _ => 0) c10NN 5
    [[6], []] [] (by decide)

/-- C3 counterexample: the claim asserts the momentum matrices have
exactly the same shape as the corresponding weight matrices.  For
Init(0, 1, 1) the input-weight matrix is 2 x 1 (NHiddens x NInputs) while
the momentum matrix inputChanges is 1 x 2 - allocated by
matrix(NInputs, NHiddens), the transpose - so the claimed shape equality
fails. -/
theorem init_changes_shape_cex :
    (Init nilNN 0 1 1 zRnd zRnd).InputWeights.length = 2 ∧
    (Init nilNN 0 1 1 zRnd zRnd).InputChanges.length = 1 ∧
    ¬ Mat 2 1 (Init nilNN 0 1 1 zRnd zRnd).InputChanges := by decide

/-- C3 amended: Init allocates the weight matrices destination x source
(inputWeights: NHiddens x NInputs, outputWeights: NOutputs x NHiddens) and
the momentum matrices with the TRANSPOSED shape, source x destination
(inputChanges: NInputs x NHiddens, outputChanges: NHiddens x NOutputs);
the forward pass leaves all four matrices untouched, and BackPropagate
preserves all four shapes, so the shapes never change after
construction. -/
theorem init_momentum_transposed_shapes :
    (∀ (base : FeedForward) (ins hid outs : ℕ) (rI rO : ℕ → ℕ → ℚ),
      Mat (hid + 1) (ins + 1) (Init base ins hid outs rI rO).InputWeights ∧
      Mat outs (hid + 1) (Init base ins hid outs rI rO).OutputWeights ∧
      Mat (ins + 1) (hid + 1) (Init base ins hid outs rI rO).InputChanges ∧
      Mat (hid + 1) outs (Init base ins hid outs rI rO).OutputChanges) ∧
    (∀ (act : ℚ → ℚ) (train : Bool) (rnd : ℕ → ℚ) (nn nn2 : FeedForward) (inputs : List ℚ),
      updateGo act train rnd nn inputs = some nn2 →
        nn2.InputWeights = nn.InputWeights ∧ nn2.OutputWeights = nn.OutputWeights ∧
        nn2.InputChanges = nn.InputChanges ∧ nn2.OutputChanges = nn.OutputChanges) ∧
    (∀ (nn : FeedForward) (targets : List ℚ) (lRate mFactor : ℚ) (nn2 : FeedForward) (e : ℚ),
      WellShaped nn → BackPropagate nn targets lRate mFactor = some (nn2, e) →
        Mat nn.NHiddens nn.NInputs nn2.InputWeights ∧
        Mat nn.NOutputs nn.NHiddens nn2.OutputWeights ∧
        Mat nn.NInputs nn.NHiddens nn2.InputChanges ∧
        Mat nn.NHiddens nn.NOutputs nn2.OutputChanges) := by
  refine ⟨?_, ?_, ?_⟩
  · intro base ins hid outs rI rO
    refine ⟨?_, ?_, ?_, ?_⟩
    · show Mat (hid + 1) (ins + 1)
        (fillMatrix rI (ins + 1) (hid + 1) (matrix (hid + 1) (ins + 1)))
      exact mat_fillMatrix _ _ _ _ (mat_matrix _ _)
    · show Mat outs (hid + 1) (fillMatrix rO (hid + 1) outs (matrix outs (hid + 1)))
      exact mat_fillMatrix _ _ _ _ (mat_matrix _ _)
    · show Mat (ins + 1) (hid + 1) (matrix (ins + 1) (hid + 1))
      exact mat_matrix _ _
    · show Mat (hid + 1) outs (matrix (hid + 1) outs)
      exact mat_matrix _ _
  · intro act train rnd nn nn2 inputs hu
    obtain ⟨hlen, hh, hhp, hnn2⟩ := updateGo_some_elim _ _ _ _ _ _ hu
    subst hnn2
    exact ⟨rfl, rfl, rfl, rfl⟩
  · intro nn targets lRate mFactor nn2 e hW hbp
    obtain ⟨hIA, hHA, hOA, hIW, hOW, hIC, hOC⟩ := hW
    obtain ⟨ht, hnn2, he⟩ := backPropagate_some_elim _ _ _ _ _ _ hbp
    subst hnn2
    refine ⟨?_, ?_, ?_, ?_⟩
    · exact bpLoop_snd_mat _ _ _ _ _ _ _ hIW
    · exact bpLoop_snd_mat _ _ _ _ _ _ _ hOW
    · exact bpLoop_fst_mat _ _ _ _ _ _ _ hIC
    · exact bpLoop_fst_mat _ _ _ _ _ _ _ hOC

theorem init_momentum_transposed_shapes_witness :
    (Mat 2 1 (Init nilNN 0 1 1 zRnd zRnd).InputWeights ∧
      Mat 1 2 (Init nilNN 0 1 1 zRnd zRnd).OutputWeights ∧
      Mat 1 2 (Init nilNN 0 1 1 zRnd zRnd).InputChanges ∧
      Mat 2 1 (Init nilNN 0 1 1 zRnd zRnd).OutputChanges) ∧
    (c9NN1.InputWeights = c9NN.InputWeights ∧ c9NN1.OutputWeights = c9NN.OutputWeights ∧
      c9NN1.InputChanges = c9NN.InputChanges ∧ c9NN1.OutputChanges = c9NN.OutputChanges) ∧
    (Mat c5NN.NHiddens c5NN.NInputs c5NN2.InputWeights ∧
      Mat c5NN.NOutputs c5NN.NHiddens c5NN2.OutputWeights ∧
      Mat c5NN.NInputs c5NN.NHiddens c5NN2.InputChanges ∧
      Mat c5NN.NHiddens c5NN.NOutputs c5NN2.OutputChanges) :=
  ⟨init_momentum_transposed_shapes.1 nilNN 0 1 1 zRnd zRnd,
    init_momentum_transposed_shapes.2.1 (fun x => x) false (fun _ => 0) c9NN c9NN1 [5]
      (by norm_num [updateGo, fillFrom, hiddenPass, shiftCtx, dot64, c9NN, c9NN1,
        List.range_succ]),
    init_momentum_transposed_shapes.2.2 c5NN [1] 2 0 c5NN2 4 (by decide)
      (by norm_num [BackPropagate, outputDeltas, hiddenDeltas, bpLoop, bpStep, colAdd, scal64,
        axpy64, goCopy, mget, mset, dsigmoid, c5NN, c5NN2, List.range_succ])⟩

/-- C4 counterexample: SetWeights does NOT read the flat vector in
destination-unit-major order.  On a 2x2 input-weight matrix with the flat
vector [10, 11, 12, 13, 14, 15], the source reads source-unit-major,
producing InputWeights = [[10, 12], [11, 13]], while the claimed
destination-unit-major order would produce [[10, 11], [12, 13]]. -/
theorem setWeights_dest_major_cex :
    (SetWeights c4NN32 c4w).InputWeights = [[10, 12], [11, 13]] ∧
    (SetWeightsDestMajor c4NN32 c4w).InputWeights = [[10, 11], [12, 13]] ∧
    SetWeights c4NN32 c4w ≠ SetWeightsDestMajor c4NN32 c4w := by decide

/-- C4 amended: SetWeights, given a flat vector of length
NInputs*NHiddens + NHiddens*NOutputs, overwrites the input-weight matrix
first (from the first NInputs*NHiddens entries) and then the output-weight
matrix, reading each matrix's block in SOURCE-unit-major order: for each
source unit i in order, the weights into every destination unit j in
order, so weight[j][i] comes from position i*nDest + j of the block. -/
theorem setWeights_source_major (nn : FeedForward32) (weights : List ℚ)
    (hI : Mat nn.NHiddens nn.NInputs nn.InputWeights)
    (hO : Mat nn.NOutputs nn.NHiddens nn.OutputWeights) :
    (∀ j < nn.NHiddens, ∀ i < nn.NInputs,
      mget (SetWeights nn weights).InputWeights j i =
        weights.getD (i * nn.NHiddens + j) 0) ∧
    (∀ j < nn.NOutputs, ∀ i < nn.NHiddens,
      mget (SetWeights nn weights).OutputWeights j i =
        weights.getD (nn.NInputs * nn.NHiddens + i * nn.NOutputs + j) 0) := by
  constructor
  · intro j hj i hi
    show mget (fillSeq weights nn.NInputs nn.NHiddens (nn.InputWeights, 0)).1 j i = _
    rw [mget_fillSeq weights _ _ _ hI (le_refl _) (le_refl _) i j hi hj]
    rw [Nat.zero_add]
  · intro j hj i hi
    show mget (fillSeq weights nn.NHiddens nn.NOutputs
        (nn.OutputWeights, (fillSeq weights nn.NInputs nn.NHiddens (nn.InputWeights, 0)).2)).1
        j i = _
    rw [mget_fillSeq weights _ _ _ hO (le_refl _) (le_refl _) i j hi hj]
    rw [fillSeq_snd]
    rw [Nat.zero_add]

theorem setWeights_source_major_witness :
    ((∀ j < c4NN32.NHiddens, ∀ i < c4NN32.NInputs,
      mget (SetWeights c4NN32 c4w).InputWeights j i =
        c4w.getD (i * c4NN32.NHiddens + j) 0) ∧
    (∀ j < c4NN32.NOutputs, ∀ i < c4NN32.NHiddens,
      mget (SetWeights c4NN32 c4w).OutputWeights j i =
        c4w.getD (c4NN32.NInputs * c4NN32.NHiddens + i * c4NN32.NOutputs + j) 0)) :=
  setWeights_source_major c4NN32 c4w (by decide) (by decide)

/-- C1 counterexample: the claim asserts that the stored previous change
equals the applied change
(learningRate * delta * sourceActivation + momentum * previousChange).
On c1NN with targets [1], learning rate 2 and momentum 0, the output
weight receives the applied change 2 (weight goes from 0 to 2), but the
final copy(OutputChanges[i], change) stores the UNSCALED gradient term
delta * sourceActivation = 1, not the applied change. -/
theorem backPropagate_stores_applied_change_cex :
    BackPropagate c1NN [1] 2 0 = some (c1NN2, 1) ∧
    mget c1NN2.OutputWeights 0 0 - mget c1NN.OutputWeights 0 0 = 2 ∧
    mget c1NN2.OutputChanges 0 0 = 1 ∧
    mget c1NN2.OutputChanges 0 0 ≠
      mget c1NN2.OutputWeights 0 0 - mget c1NN.OutputWeights 0 0 := by
  refine ⟨?_, by norm_num [mget, c1NN, c1NN2], by decide, by norm_num [mget, c1NN, c1NN2]⟩
  norm_num [BackPropagate, outputDeltas, hiddenDeltas, bpLoop, bpStep, colAdd, scal64,
    axpy64, goCopy, mget, mset, dsigmoid, c1NN, c1NN2, List.range_succ]

/-- C1 amended: for every destination unit and source unit, the weight
receives the applied change
change = learningRate * (delta_dest * sourceActivation_src)
  + momentum * previousChange[src][dest],
exactly as claimed, but the stored previous change is then set to the
UNSCALED gradient term delta_dest * sourceActivation_src (without the
learning-rate factor and without the momentum term), not to the applied
change - for both the output-weight and the input-weight updates. -/
theorem backPropagate_weight_update_rule (nn : FeedForward) (targets : List ℚ)
    (lRate mFactor : ℚ) (nn2 : FeedForward) (e : ℚ) (hW : WellShaped nn)
    (hbp : BackPropagate nn targets lRate mFactor = some (nn2, e)) :
    (∀ i < nn.NHiddens, ∀ j < nn.NOutputs,
      mget nn2.OutputWeights j i =
        mget nn.OutputWeights j i +
          (lRate * (nn.HiddenActivations.getD i 0 * (outputDeltas nn targets).getD j 0) +
            mFactor * mget nn.OutputChanges i j) ∧
      mget nn2.OutputChanges i j =
        nn.HiddenActivations.getD i 0 * (outputDeltas nn targets).getD j 0) ∧
    (∀ i < nn.NInputs, ∀ j < nn.NHiddens,
      mget nn2.InputWeights j i =
        mget nn.InputWeights j i +
          (lRate * (nn.InputActivations.getD i 0 *
              (hiddenDeltas nn (outputDeltas nn targets)).getD j 0) +
            mFactor * mget nn.InputChanges i j) ∧
      mget nn2.InputChanges i j =
        nn.InputActivations.getD i 0 *
          (hiddenDeltas nn (outputDeltas nn targets)).getD j 0) := by
  obtain ⟨hIA, hHA, hOA, hIW, hOW, hIC, hOC⟩ := hW
  obtain ⟨ht, hnn2, he⟩ := backPropagate_some_elim _ _ _ _ _ _ hbp
  subst hnn2
  constructor
  · intro i hi j hj
    have hrowOC : (nn.OutputChanges.getD i []).length = nn.NOutputs := mat_rowLen hOC i hi
    have hlenOC : nn.NHiddens ≤ nn.OutputChanges.length := by rw [hOC.1]
    constructor
    · show mget (bpLoop nn.HiddenActivations (outputDeltas nn targets) lRate mFactor
          nn.NHiddens nn.NOutputs (nn.OutputChanges, nn.OutputWeights)).2 j i = _
      rw [bpLoop_snd_mget nn.NHiddens _ _ _ _ _ _ _ i j hi hj hlenOC hOW
        (le_refl _)]
      dsimp only
      rw [getD_axpy64 _ _ _ _ (by rw [length_scal64, hrowOC]; exact hj)]
      rw [getD_scal64 _ _ _ (by rw [length_outputDeltas]; exact hj)]
      rw [getD_scal64 _ _ _ (by rw [hrowOC]; exact hj)]
      rfl
    · show ((bpLoop nn.HiddenActivations (outputDeltas nn targets) lRate mFactor
          nn.NHiddens nn.NOutputs (nn.OutputChanges, nn.OutputWeights)).1.getD i []).getD
          j 0 = _
      rw [bpLoop_fst_row _ _ _ _ _ _ _ i hi hlenOC]
      dsimp only
      rw [getD_goCopy_lt _ _ _ (by
        rw [length_axpy64, length_scal64, length_scal64, hrowOC, length_outputDeltas]
        simpa using hj)]
      rw [getD_scal64 _ _ _ (by rw [length_outputDeltas]; exact hj)]
  · intro i hi j hj
    have hrowIC : (nn.InputChanges.getD i []).length = nn.NHiddens := mat_rowLen hIC i hi
    have hlenIC : nn.NInputs ≤ nn.InputChanges.length := by rw [hIC.1]
    constructor
    · show mget (bpLoop nn.InputActivations (hiddenDeltas nn (outputDeltas nn targets))
          lRate mFactor nn.NInputs nn.NHiddens (nn.InputChanges, nn.InputWeights)).2 j i = _
      rw [bpLoop_snd_mget nn.NInputs _ _ _ _ _ _ _ i j hi hj hlenIC hIW
        (le_refl _)]
      dsimp only
      rw [getD_axpy64 _ _ _ _ (by rw [length_scal64, hrowIC]; exact hj)]
      rw [getD_scal64 _ _ _ (by rw [length_hiddenDeltas]; exact hj)]
      rw [getD_scal64 _ _ _ (by rw [hrowIC]; exact hj)]
      rfl
    · show ((bpLoop nn.InputActivations (hiddenDeltas nn (outputDeltas nn targets))
          lRate mFactor nn.NInputs nn.NHiddens
          (nn.InputChanges, nn.InputWeights)).1.getD i []).getD j 0 = _
      rw [bpLoop_fst_row _ _ _ _ _ _ _ i hi hlenIC]
      dsimp only
      rw [getD_goCopy_lt _ _ _ (by
        rw [length_axpy64, length_scal64, length_scal64, hrowIC, length_hiddenDeltas]
        simpa using hj)]
      rw [getD_scal64 _ _ _ (by rw [length_hiddenDeltas]; exact hj)]

theorem backPropagate_weight_update_rule_witness :
    mget c1NN2.OutputWeights 0 0 =
      mget c1NN.OutputWeights 0 0 +
        (2 * (c1NN.HiddenActivations.getD 0 0 * (outputDeltas c1NN [1]).getD 0 0) +
          0 * mget c1NN.OutputChanges 0 0) ∧
    mget c1NN2.OutputChanges 0 0 =
      c1NN.HiddenActivations.getD 0 0 * (outputDeltas c1NN [1]).getD 0 0 :=
  (backPropagate_weight_update_rule c1NN [1] 2 0 c1NN2 1 (by decide)
    (by norm_num [BackPropagate, outputDeltas, hiddenDeltas, bpLoop, bpStep, colAdd, scal64,
      axpy64, goCopy, mget, mset, dsigmoid, c1NN, c1NN2, List.range_succ])).1
    0 (by decide) 0 (by decide)

end Gobrain
